import Mathlib

/-!
Shallow embedding of the `ah-aydin/ray-tracer` repository (Rust) over the
rationals `ℚ` (standing in for `f64`; square roots are passed explicitly as
function arguments or characterized by hypotheses, since `f64::sqrt` has no
exact rational counterpart).  Every definition mirrors the corresponding
Rust item in `src/`.
-/

namespace RT

/-- `Interval` from `src/interval.rs`: a numeric range with raw `min`/`max`
fields. -/
structure Interval where
  min : ℚ
  max : ℚ
deriving DecidableEq

/-- `Interval::new(a, b)` from `src/interval.rs`: normalizes the two bounds
so that `min ≤ max` (`a.min(b)` / `a.max(b)`). -/
def Interval.new (a b : ℚ) : Interval :=
  ⟨Min.min a b, Max.max a b⟩

/-- `Interval::from_intervals` from `src/interval.rs`: per-field union
(min of mins, max of maxes, via explicit comparisons). -/
def Interval.from_intervals (i1 i2 : Interval) : Interval :=
  ⟨if i1.min < i2.min then i1.min else i2.min,
   if i1.max > i2.max then i1.max else i2.max⟩

/-- `Interval::expand(delta)` from `src/interval.rs`: adds `delta/2` to `min`
and subtracts `delta/2` from `max` (note the signs in the source). -/
def Interval.expand (i : Interval) (delta : ℚ) : Interval :=
  let padding := delta / 2
  ⟨i.min + padding, i.max - padding⟩

/-- `Interval::surrounds(x)` from `src/interval.rs`: strict containment
`min < x && x < max`. -/
def Interval.surrounds (i : Interval) (x : ℚ) : Bool :=
  decide (i.min < x) && decide (x < i.max)

/-- `Interval::clamp(x)` from `src/interval.rs`: `x.max(self.min).min(self.max)`. -/
def Interval.clamp (i : Interval) (x : ℚ) : ℚ :=
  Min.min (Max.max x i.min) i.max

theorem Interval.surrounds_iff (i : Interval) (x : ℚ) :
    i.surrounds x = true ↔ i.min < x ∧ x < i.max := by
  simp [Interval.surrounds]

/-- `Vec3` from `src/vec.rs` (also used as `Point3` and `Color3`). -/
structure Vec3 where
  x : ℚ
  y : ℚ
  z : ℚ
deriving DecidableEq

/-- `Vec3::zero()` from `src/vec.rs`. -/
def Vec3.zero : Vec3 := ⟨0, 0, 0⟩

/-- `impl Add for Vec3` from `src/vec.rs`. -/
def Vec3.add (a b : Vec3) : Vec3 := ⟨a.x + b.x, a.y + b.y, a.z + b.z⟩

instance : Add Vec3 := ⟨Vec3.add⟩

/-- `impl Sub for Vec3` from `src/vec.rs`. -/
def Vec3.sub (a b : Vec3) : Vec3 := ⟨a.x - b.x, a.y - b.y, a.z - b.z⟩

instance : Sub Vec3 := ⟨Vec3.sub⟩

/-- `impl Mul for Vec3` (componentwise) from `src/vec.rs`. -/
def Vec3.mul (a b : Vec3) : Vec3 := ⟨a.x * b.x, a.y * b.y, a.z * b.z⟩

instance : Mul Vec3 := ⟨Vec3.mul⟩

/-- `impl Mul<Vec3> for f64` (left scalar multiplication) from `src/vec.rs`. -/
def Vec3.smul (k : ℚ) (v : Vec3) : Vec3 := ⟨k * v.x, k * v.y, k * v.z⟩

instance : SMul ℚ Vec3 := ⟨Vec3.smul⟩

/-- `impl Div<f64> for Vec3` from `src/vec.rs`. -/
def Vec3.div (v : Vec3) (k : ℚ) : Vec3 := ⟨v.x / k, v.y / k, v.z / k⟩

/-- `Vec3::squared_length` from `src/vec.rs`. -/
def Vec3.squared_length (v : Vec3) : ℚ := v.x * v.x + v.y * v.y + v.z * v.z

/-- `Vec3::dot` from `src/vec.rs`. -/
def Vec3.dot (a b : Vec3) : ℚ := a.x * b.x + a.y * b.y + a.z * b.z

/-- `Vec3::negate` from `src/vec.rs`. -/
def Vec3.negate (v : Vec3) : Vec3 := ⟨-v.x, -v.y, -v.z⟩

/-- `Vec3::length` from `src/vec.rs` (`sqrt` of `squared_length`); the square
root is supplied as an explicit function argument `sq`. -/
def Vec3.length (sq : ℚ → ℚ) (v : Vec3) : ℚ := sq v.squared_length

/-- `Vec3::unit` from `src/vec.rs`: `*self / self.length()`. -/
def Vec3.unit (sq : ℚ → ℚ) (v : Vec3) : Vec3 := v.div (v.length sq)

/-- `Vec3::near_zero` from `src/vec.rs`: all components below `1e-8` in
absolute value. -/
def Vec3.near_zero (v : Vec3) : Bool :=
  decide (|v.x| < 1 / 10 ^ 8) && decide (|v.y| < 1 / 10 ^ 8) &&
    decide (|v.z| < 1 / 10 ^ 8)

/-- `Vec3::reflect` from `src/vec.rs`: `v − 2 (v⋅n) n`. -/
def Vec3.reflect (v n : Vec3) : Vec3 := v - (2 * v.dot n) • n

/-- `Vec3::refract` from `src/vec.rs`; the square root is supplied as `sq`. -/
def Vec3.refract (sq : ℚ → ℚ) (uv n : Vec3) (etai_over_etat : ℚ) : Vec3 :=
  let cos_theta := Min.min (uv.negate.dot n) 1
  let r_out_perp := etai_over_etat • (uv + cos_theta • n)
  let r_out_parallel := (-(sq |1 - r_out_perp.squared_length|)) • n
  r_out_perp + r_out_parallel

@[simp] theorem Vec3.add_def (a b : Vec3) :
    a + b = ⟨a.x + b.x, a.y + b.y, a.z + b.z⟩ := rfl

@[simp] theorem Vec3.sub_def (a b : Vec3) :
    a - b = ⟨a.x - b.x, a.y - b.y, a.z - b.z⟩ := rfl

@[simp] theorem Vec3.mul_def (a b : Vec3) :
    a * b = ⟨a.x * b.x, a.y * b.y, a.z * b.z⟩ := rfl

@[simp] theorem Vec3.smul_def (k : ℚ) (v : Vec3) :
    k • v = ⟨k * v.x, k * v.y, k * v.z⟩ := rfl

/-- Component access mirroring `v[n]` used by `AABB::hit` in `src/aabb.rs`
(axes `0`, `1`, `2`; other indices never occur at any call site). -/
def Vec3.nth (v : Vec3) : Nat → ℚ
  | 0 => v.x
  | 1 => v.y
  | _ => v.z

/-- `Ray` from `src/ray.rs`. -/
structure Ray where
  origin : Vec3
  dir : Vec3
  tm : ℚ
deriving DecidableEq

/-- `Ray::new` from `src/ray.rs` (time defaults to `0`). -/
def Ray.new (origin dir : Vec3) : Ray := ⟨origin, dir, 0⟩

/-- `Ray::new_time` from `src/ray.rs`. -/
def Ray.new_time (origin dir : Vec3) (tm : ℚ) : Ray := ⟨origin, dir, tm⟩

/-- `Ray::at(t)` from `src/ray.rs`: `origin + t * dir`. -/
def Ray.at (r : Ray) (t : ℚ) : Vec3 := r.origin + t • r.dir

/-- `AABB` from `src/aabb.rs`: one interval per axis. -/
structure AABB where
  x : Interval
  y : Interval
  z : Interval
deriving DecidableEq

/-- `AABB::new` from `src/aabb.rs`. -/
def AABB.new (x y z : Interval) : AABB := ⟨x, y, z⟩

/-- `AABB::from_points(p1, p2)` from `src/aabb.rs`, including the source's
`p1.z < p1.z` comparison on the `z` axis (the condition in the source
compares `p1.z` with itself). -/
def AABB.from_points (p1 p2 : Vec3) : AABB :=
  ⟨if p1.x < p2.x then Interval.new p1.x p2.x else Interval.new p2.x p1.x,
   if p1.y < p2.y then Interval.new p1.y p2.y else Interval.new p2.y p1.y,
   if p1.z < p1.z then Interval.new p1.z p2.z else Interval.new p2.z p1.z⟩

/-- `AABB::axis_interval(n)` from `src/aabb.rs` (axes `0`, `1`, `2`; any other
index panics in the source and never occurs at a call site). -/
def AABB.axis_interval (b : AABB) : Nat → Interval
  | 0 => b.x
  | 1 => b.y
  | _ => b.z

/-- `AABB::from_boxes` from `src/aabb.rs`: per-axis interval union. -/
def AABB.from_boxes (b1 b2 : AABB) : AABB :=
  ⟨Interval.from_intervals b1.x b2.x,
   Interval.from_intervals b1.y b2.y,
   Interval.from_intervals b1.z b2.z⟩

/-- One iteration of the loop body of `AABB::hit` from `src/aabb.rs`: narrow
the running interval `rt` by the slab of axis interval `ax`, for ray origin
component `o` and direction component `d`. -/
def AABB.hitAxis (ax : Interval) (o d : ℚ) (rt : Interval) : Interval :=
  let adinv := 1 / d
  let t0 := (ax.min - o) * adinv
  let t1 := (ax.max - o) * adinv
  if t0 < t1 then
    ⟨if t0 > rt.min then t0 else rt.min, if t1 < rt.max then t1 else rt.max⟩
  else
    ⟨if t1 > rt.min then t1 else rt.min, if t0 < rt.max then t0 else rt.max⟩

/-- `AABB::hit(ray, ray_t)` from `src/aabb.rs`: the three-axis slab test with
its early `return false` after each axis (the `for axis in 0..3` loop is
unrolled). -/
def AABB.hit (b : AABB) (ray : Ray) (ray_t : Interval) : Bool :=
  let r1 := AABB.hitAxis (b.axis_interval 0) (ray.origin.nth 0) (ray.dir.nth 0) ray_t
  if r1.max ≤ r1.min then false
  else
    let r2 := AABB.hitAxis (b.axis_interval 1) (ray.origin.nth 1) (ray.dir.nth 1) r1
    if r2.max ≤ r2.min then false
    else
      let r3 := AABB.hitAxis (b.axis_interval 2) (ray.origin.nth 2) (ray.dir.nth 2) r2
      if r3.max ≤ r3.min then false
      else true

/-- `INTENSITY` from `src/vec.rs`: `Interval::new(0.0, 0.999)`. -/
def INTENSITY : Interval := Interval.new 0 (999 / 1000)

/-- `linear_to_gamma` from `Color3::write` in `src/vec.rs`: square root for
positive inputs, `0` otherwise. -/
def linear_to_gamma (sq : ℚ → ℚ) (linear_component : ℚ) : ℚ :=
  if linear_component > 0 then sq linear_component else 0

/-- One output channel of `Color3::write` in `src/vec.rs`: gamma-correct,
clamp to `INTENSITY`, scale by `256`, truncate (`as usize`, which floors
the non-negative result). -/
def Color3.writeChannel (sq : ℚ → ℚ) (c : ℚ) : ℕ :=
  (Int.floor (INTENSITY.clamp (linear_to_gamma sq c) * 256)).toNat

/-- `Color3::write` from `src/vec.rs`: the three integers written for a
pixel, in `r g b` order. -/
def Color3.write (sq : ℚ → ℚ) (v : Vec3) : ℕ × ℕ × ℕ :=
  (Color3.writeChannel sq v.x, Color3.writeChannel sq v.y,
   Color3.writeChannel sq v.z)

/-- `f64::MAX`, the largest finite double, used by `HittableList::hit`
(`unwrap_or(f64::MAX)`) and `Camera::ray_color` (`Interval::new(0.001,
f64::MAX)`): exactly `(2 − 2⁻⁵²)·2¹⁰²³`. -/
def fMAX : ℚ := 2 ^ 1024 - 2 ^ 971

/-- `HitRecord` from `src/hittable.rs`; the `Arc<dyn Material>` field is the
type parameter `μ`. -/
structure HitRecord (μ : Type) where
  p : Vec3
  normal : Vec3
  material : μ
  t : ℚ
  is_front_face : Bool
deriving DecidableEq

/-- `HitRecord::new` from `src/hittable.rs`: stores the outward normal as
given (never flipped) and computes `is_front_face` as
`ray.dir.dot(outward_normal) < 0`. -/
def HitRecord.new {μ : Type} (p outward_normal : Vec3) (ray : Ray)
    (material : μ) (t : ℚ) : HitRecord μ :=
  ⟨p, outward_normal, material, t, decide (ray.dir.dot outward_normal < 0)⟩

/-- `Sphere` from `src/sphere.rs`; the material is the type parameter `μ`. -/
structure Sphere (μ : Type) where
  center : Ray
  radius : ℚ
  material : μ
  bbox : AABB
deriving DecidableEq

/-- `Sphere::new` from `src/sphere.rs` (static sphere; asserts `radius ≥ 0`
at runtime, which is a precondition here, not enforced by the model). -/
def Sphere.new {μ : Type} (center : Vec3) (radius : ℚ) (material : μ) :
    Sphere μ :=
  let rvec : Vec3 := ⟨radius, radius, radius⟩
  { center := Ray.new center Vec3.zero
    radius := radius
    material := material
    bbox := AABB.from_points (center - rvec) (center + rvec) }

/-- `Sphere::new_moving` from `src/sphere.rs`. -/
def Sphere.new_moving {μ : Type} (center target_center : Vec3) (radius : ℚ)
    (material : μ) : Sphere μ :=
  let rvec : Vec3 := ⟨radius, radius, radius⟩
  let box1 := AABB.from_points (center - rvec) (center + rvec)
  let box2 := AABB.from_points (target_center - rvec) (target_center + rvec)
  { center := Ray.new center (target_center - center)
    radius := radius
    material := material
    bbox := AABB.from_boxes box1 box2 }

/-- The quadratic discriminant `h² − a·c` computed by `Sphere::hit` in
`src/sphere.rs`. -/
def Sphere.discriminant {μ : Type} (s : Sphere μ) (ray : Ray) : ℚ :=
  let current_center := s.center.at ray.tm
  let oc := current_center - ray.origin
  let a := ray.dir.squared_length
  let h := ray.dir.dot oc
  let c := oc.squared_length - s.radius ^ 2
  h * h - a * c

/-- `Sphere::hit` from `src/sphere.rs`: no hit on a negative discriminant;
otherwise compute only the smaller root `(h − √discriminant)/a` and give up
when it is outside the open search interval.  The square root is supplied
as the function `sq`. -/
def Sphere.hit {μ : Type} (sq : ℚ → ℚ) (s : Sphere μ) (ray : Ray)
    (ray_t : Interval) : Option (HitRecord μ) :=
  let current_center := s.center.at ray.tm
  let oc := current_center - ray.origin
  let a := ray.dir.squared_length
  let h := ray.dir.dot oc
  let discriminant := s.discriminant ray
  if discriminant < 0 then none
  else
    let root := (h - sq discriminant) / a
    if ¬ (ray_t.surrounds root = true) then none
    else
      let hit_point := ray.at root
      let normal := (hit_point - current_center).div s.radius
      some (HitRecord.new hit_point normal ray s.material root)

/-- `ScatterRecord` from `src/material.rs`. -/
structure ScatterRecord where
  scattered : Ray
  attenuation : Vec3

/-- `Lambertian::scatter` from `src/material.rs`; the sampled
`Vec3::random_unit()` is the argument `rand_unit`. -/
def Lambertian.scatter {μ : Type} (albedo rand_unit : Vec3) (ray_in : Ray)
    (hit_record : HitRecord μ) : Option ScatterRecord :=
  let scatter_direction := hit_record.normal + rand_unit
  let scatter_direction :=
    if scatter_direction.near_zero then hit_record.normal
    else scatter_direction
  some ⟨Ray.new_time hit_record.p scatter_direction ray_in.tm, albedo⟩

/-- `Metal::scatter` from `src/material.rs`; the sampled
`Vec3::random_unit()` is `rand_unit`, the square root used by
`Vec3::unit` is `sq`. -/
def Metal.scatter {μ : Type} (sq : ℚ → ℚ) (albedo : Vec3) (fuzz : ℚ)
    (rand_unit : Vec3) (ray_in : Ray) (hit_record : HitRecord μ) :
    Option ScatterRecord :=
  let reflected := (Vec3.reflect ray_in.dir hit_record.normal).unit sq
  let reflected :=
    if fuzz > 0 then reflected + fuzz • rand_unit else reflected
  some ⟨Ray.new_time hit_record.p reflected ray_in.tm, albedo⟩

/-- `Dielectric::reflectance` from `src/material.rs` (Schlick). -/
def Dielectric.reflectance (refraction_index cosine : ℚ) : ℚ :=
  let r0 := (1 - refraction_index) / (1 + refraction_index)
  let r0 := r0 * r0
  r0 + (1 - r0) * (1 - cosine) ^ 5

/-- `Dielectric::scatter` from `src/material.rs`; the drawn
`random_percentage()` is `rand_pct`, square roots are `sq`. -/
def Dielectric.scatter {μ : Type} (sq : ℚ → ℚ) (refraction_index rand_pct : ℚ)
    (ray_in : Ray) (hit_record : HitRecord μ) : Option ScatterRecord :=
  let ri :=
    if hit_record.is_front_face then 1 / refraction_index
    else refraction_index
  let unit_direction := ray_in.dir.unit sq
  let cos_theta := Min.min (unit_direction.negate.dot hit_record.normal) 1
  let sin_theta := sq (1 - cos_theta * cos_theta)
  let cannot_refract := ri * sin_theta > 1
  let direction :=
    if cannot_refract ∨ Dielectric.reflectance refraction_index cos_theta > rand_pct then
      Vec3.reflect unit_direction hit_record.normal
    else
      Vec3.refract sq unit_direction hit_record.normal ri
  some ⟨Ray.new_time hit_record.p direction ray_in.tm, ⟨1, 1, 1⟩⟩

/-- `HittableList` from `src/hittable.rs`, over an abstract object type `α`
(the `Arc<dyn Hittable>` elements). -/
structure HittableList (α : Type) where
  objects : List α
  bbox : AABB

/-- `HittableList::new` from `src/hittable.rs`: empty object list, bounding
box built from two zero corners. -/
def HittableList.new {α : Type} : HittableList α :=
  ⟨[], AABB.from_points Vec3.zero Vec3.zero⟩

/-- `HittableList::add` from `src/hittable.rs`: union the stored box with
the added object's box (`bb` is the object's `boundnig_box` method), then
push the object. -/
def HittableList.add {α : Type} (bb : α → AABB) (l : HittableList α)
    (o : α) : HittableList α :=
  ⟨l.objects ++ [o], AABB.from_boxes l.bbox (bb o)⟩

/-- `HittableList::boundnig_box` from `src/hittable.rs`: the body is
`todo!()`, which panics unconditionally; the panic is modelled as an
`Except.error` carrying the standard `todo!` message. -/
def HittableList.boundnig_box {α : Type} (_l : HittableList α) :
    Except String AABB :=
  Except.error "not yet implemented"

/-- `HittableList::hit` from `src/hittable.rs`: linear scan keeping the
latest (hence closest) hit by shrinking the upper query bound to the
current best `t` (`unwrap_or(f64::MAX)` when no hit was found yet);
`ohit` is the dynamic dispatch to each object's `hit`. -/
def HittableList.hitScan {α μ : Type}
    (ohit : α → Ray → Interval → Option (HitRecord μ))
    (objects : List α) (ray : Ray) (ray_t : Interval) :
    Option (HitRecord μ) :=
  objects.foldl
    (fun current_hit_record object =>
      let current_max :=
        Min.min ray_t.max ((current_hit_record.map (fun r => r.t)).getD fMAX)
      match ohit object ray (Interval.new ray_t.min current_max) with
      | some hit_record => some hit_record
      | none => current_hit_record)
    none

/-- The runtime shape of the `Arc<dyn Hittable>` tree rooted at a `BVHNode`
(`src/bvh.rs`): leaves are scene objects, interior nodes carry their
precomputed bounding box. -/
inductive HTree (α : Type) where
  | obj : α → HTree α
  | node : AABB → HTree α → HTree α → HTree α

/-- `Option::or_else`: keep the first operand when present, otherwise use
the second (as in `right_hit_record.or_else(|| left_hit_record)`). -/
def orElseHit2 {β : Type} (o2 o1 : Option β) : Option β :=
  match o2 with
  | some m => some m
  | none => o1

@[simp] theorem orElseHit2_none {β : Type} (o1 : Option β) :
    orElseHit2 none o1 = o1 := rfl

@[simp] theorem orElseHit2_some {β : Type} (b : β) (o1 : Option β) :
    orElseHit2 (some b) o1 = some b := rfl

theorem orElseHit2_right_none {β : Type} (x : Option β) :
    orElseHit2 x none = x := by
  cases x <;> rfl

/-- `BVHNode::hit` from `src/bvh.rs` (with dynamic dispatch `ohit` at the
leaves): cull by the node box; search the left child over the full
interval; narrow the upper bound to the left hit's `t` (if any); search
the right child; return the right result when present, otherwise the
left one (`right_hit_record.or_else(|| left_hit_record)`). -/
def HTree.hit {α μ : Type}
    (ohit : α → Ray → Interval → Option (HitRecord μ)) :
    HTree α → Ray → Interval → Option (HitRecord μ)
  | .obj o, ray, ray_t => ohit o ray ray_t
  | .node bbox left right, ray, ray_t =>
    if ¬ (bbox.hit ray ray_t = true) then none
    else
      let left_hit_record := left.hit ohit ray ray_t
      let interval :=
        match left_hit_record with
        | some r => Interval.new ray_t.min r.t
        | none => Interval.new ray_t.min ray_t.max
      let right_hit_record := right.hit ohit ray interval
      orElseHit2 right_hit_record left_hit_record

/-- `Camera::ray_color` from `src/camera.rs`, by recursion on the remaining
depth (`depth <= 0` returns black).  The scene intersection and the
dynamic material dispatch are the arguments `objHit` and `scatter`; the
square root used by `Vec3::unit` is `sq`. -/
def ray_color {μ : Type} (sq : ℚ → ℚ)
    (objHit : Ray → Interval → Option (HitRecord μ))
    (scatter : μ → Ray → HitRecord μ → Option ScatterRecord) :
    Ray → Nat → Vec3
  | _, 0 => Vec3.zero
  | ray, depth + 1 =>
    match objHit ray (Interval.new (1 / 1000) fMAX) with
    | some hit_record =>
      match scatter hit_record.material ray hit_record with
      | some scatter_record =>
          scatter_record.attenuation *
            ray_color sq objHit scatter scatter_record.scattered depth
      | none => Vec3.zero
    | none =>
      let unit_direction := ray.dir.unit sq
      let a := 1 / 2 * (unit_direction.y + 1)
      (1 - a) • (⟨1, 1, 1⟩ : Vec3) + a • (⟨1 / 2, 7 / 10, 1⟩ : Vec3)

theorem Interval.new_comm (a b : ℚ) : Interval.new a b = Interval.new b a := by
  unfold Interval.new
  rw [min_comm, max_comm]

theorem AABB.from_points_char (p1 p2 : Vec3) :
    AABB.from_points p1 p2 =
      ⟨Interval.new p1.x p2.x, Interval.new p1.y p2.y, Interval.new p1.z p2.z⟩ := by
  unfold AABB.from_points
  have hz : ¬ (p1.z < p1.z) := lt_irrefl _
  rw [if_neg hz, Interval.new_comm p2.z p1.z]
  congr 1 <;> split <;> first | rfl | exact Interval.new_comm _ _

/-- C6: `AABB::from_points` is insensitive to corner order: the boxes built
from `(p1, p2)` and `(p2, p1)` are equal, each axis interval is
`[min, max]` of the two corner components, and consequently the slab test
`AABB::hit` answers identically for both constructions on every ray and
every starting range. -/
theorem aabb_from_points_symmetric (p1 p2 : Vec3) :
    AABB.from_points p1 p2 = AABB.from_points p2 p1
    ∧ (AABB.from_points p1 p2).x =
        ⟨Min.min p1.x p2.x, Max.max p1.x p2.x⟩
    ∧ (AABB.from_points p1 p2).y =
        ⟨Min.min p1.y p2.y, Max.max p1.y p2.y⟩
    ∧ (AABB.from_points p1 p2).z =
        ⟨Min.min p1.z p2.z, Max.max p1.z p2.z⟩
    ∧ ∀ (ray : Ray) (rt : Interval),
        (AABB.from_points p1 p2).hit ray rt = (AABB.from_points p2 p1).hit ray rt := by
  have h : AABB.from_points p1 p2 = AABB.from_points p2 p1 := by
    rw [AABB.from_points_char, AABB.from_points_char,
      Interval.new_comm p2.x p1.x, Interval.new_comm p2.y p1.y,
      Interval.new_comm p2.z p1.z]
  refine ⟨h, ?_, ?_, ?_, fun ray rt => by rw [h]⟩ <;> rw [AABB.from_points_char] <;> rfl

/-- C5 counterexample: `Interval {min: 0, max: 1}` expanded by the positive
delta `1` yields `min = 1/2`: the minimum moved up by `delta/2`, not down,
so a positive delta does not grow the interval as claimed. -/
theorem interval_expand_cex :
    ((Interval.mk 0 1).expand 1).min = 1 / 2
    ∧ ¬ ((Interval.mk 0 1).expand 1).min = 0 - 1 / 2 := by
  unfold Interval.expand
  norm_num

/-- C5 amended: `expand(delta)` returns a new interval with `min` increased
by `delta/2` and `max` decreased by `delta/2`, so a positive delta shrinks
the interval and a negative delta grows it (the receiver itself is not
mutated — `expand` builds a fresh interval). -/
theorem interval_expand_shifts (i : Interval) (d : ℚ) :
    (i.expand d).min = i.min + d / 2
    ∧ (i.expand d).max = i.max - d / 2
    ∧ (0 < d → i.min < (i.expand d).min ∧ (i.expand d).max < i.max)
    ∧ (d < 0 → (i.expand d).min < i.min ∧ i.max < (i.expand d).max) := by
  unfold Interval.expand
  exact ⟨rfl, rfl, fun h => ⟨by dsimp; linarith, by dsimp; linarith⟩,
    fun h => ⟨by dsimp; linarith, by dsimp; linarith⟩⟩

theorem interval_expand_shifts_witness :
    (0 : ℚ) < 1
    ∧ (Interval.mk 0 1).min < ((Interval.mk 0 1).expand 1).min
    ∧ ((Interval.mk 0 1).expand 1).max < (Interval.mk 0 1).max :=
  ⟨by norm_num, (interval_expand_shifts ⟨0, 1⟩ 1).2.2.1 (by norm_num)⟩

theorem AABB.hitAxis_min_le (ax : Interval) (o d : ℚ) (rt : Interval) :
    rt.min ≤ (AABB.hitAxis ax o d rt).min := by
  unfold AABB.hitAxis
  dsimp only
  split <;> dsimp only <;> split <;> first | exact le_of_lt (by assumption) | exact le_refl _

theorem AABB.hitAxis_max_le (ax : Interval) (o d : ℚ) (rt : Interval) :
    (AABB.hitAxis ax o d rt).max ≤ rt.max := by
  unfold AABB.hitAxis
  dsimp only
  split <;> dsimp only <;> split <;> first | exact le_of_lt (by assumption) | exact le_refl _

theorem AABB.hitAxis_empty (ax : Interval) (o d : ℚ) (rt : Interval)
    (h : rt.max ≤ rt.min) :
    (AABB.hitAxis ax o d rt).max ≤ (AABB.hitAxis ax o d rt).min :=
  le_trans (AABB.hitAxis_max_le ax o d rt)
    (le_trans h (AABB.hitAxis_min_le ax o d rt))

/-- The running interval of `AABB::hit` after narrowing by the first `n`
axes (stage `0` is the input search range). -/
def narrowStage (b : AABB) (ray : Ray) (rt : Interval) : Nat → Interval
  | 0 => rt
  | n + 1 =>
      AABB.hitAxis (b.axis_interval n) (ray.origin.nth n) (ray.dir.nth n)
        (narrowStage b ray rt n)

theorem aabb_hit_stages (b : AABB) (ray : Ray) (rt : Interval) :
    (b.hit ray rt = true ↔
      ((narrowStage b ray rt 1).min < (narrowStage b ray rt 1).max
        ∧ (narrowStage b ray rt 2).min < (narrowStage b ray rt 2).max
        ∧ (narrowStage b ray rt 3).min < (narrowStage b ray rt 3).max))
    ∧ (b.hit ray rt = false ↔
      ((narrowStage b ray rt 1).max ≤ (narrowStage b ray rt 1).min
        ∨ (narrowStage b ray rt 2).max ≤ (narrowStage b ray rt 2).min
        ∨ (narrowStage b ray rt 3).max ≤ (narrowStage b ray rt 3).min))
    ∧ (b.hit ray rt = true ↔
        (narrowStage b ray rt 3).min < (narrowStage b ray rt 3).max) := by
  have hdef : b.hit ray rt =
      (if (narrowStage b ray rt 1).max ≤ (narrowStage b ray rt 1).min then false
       else if (narrowStage b ray rt 2).max ≤ (narrowStage b ray rt 2).min then false
       else if (narrowStage b ray rt 3).max ≤ (narrowStage b ray rt 3).min then false
       else true) := rfl
  have hmono12 : (narrowStage b ray rt 1).max ≤ (narrowStage b ray rt 1).min →
      (narrowStage b ray rt 2).max ≤ (narrowStage b ray rt 2).min :=
    fun h => AABB.hitAxis_empty _ _ _ _ h
  have hmono23 : (narrowStage b ray rt 2).max ≤ (narrowStage b ray rt 2).min →
      (narrowStage b ray rt 3).max ≤ (narrowStage b ray rt 3).min :=
    fun h => AABB.hitAxis_empty _ _ _ _ h
  rw [hdef]
  split_ifs with h1 h2 h3
  · have h3e := hmono23 (hmono12 h1)
    simp [h1, not_lt.mpr h1, not_lt.mpr h3e]
  · have h3e := hmono23 h2
    simp [h2, not_lt.mpr h2, not_lt.mpr h3e]
  · simp [h3, not_lt.mpr h3]
  · simp [not_le.mp h1, not_le.mp h2, not_le.mp h3, le_of_lt]

/-- C7: the slab test narrows the running range axis by axis via
`AABB.hitAxis`; it returns `false` exactly when the narrowed interval is
empty (`max ≤ min`) after some axis (the source short-circuits there), it
returns `true` iff the interval stays non-empty through all three axes,
and — because narrowing only ever shrinks the interval — that is also
equivalent to the fully narrowed interval being non-empty. -/
theorem aabb_hit_characterization (b : AABB) (ray : Ray) (rt : Interval) :
    (b.hit ray rt = true ↔
      ((narrowStage b ray rt 1).min < (narrowStage b ray rt 1).max
        ∧ (narrowStage b ray rt 2).min < (narrowStage b ray rt 2).max
        ∧ (narrowStage b ray rt 3).min < (narrowStage b ray rt 3).max))
    ∧ (b.hit ray rt = false ↔
      ((narrowStage b ray rt 1).max ≤ (narrowStage b ray rt 1).min
        ∨ (narrowStage b ray rt 2).max ≤ (narrowStage b ray rt 2).min
        ∨ (narrowStage b ray rt 3).max ≤ (narrowStage b ray rt 3).min))
    ∧ (b.hit ray rt = true ↔
        (narrowStage b ray rt 3).min < (narrowStage b ray rt 3).max) :=
  aabb_hit_stages b ray rt

theorem intensity_clamp_bounds (q : ℚ) :
    0 ≤ INTENSITY.clamp q ∧ INTENSITY.clamp q ≤ 999 / 1000 := by
  unfold INTENSITY Interval.clamp Interval.new
  constructor
  · apply le_min
    · exact le_max_of_le_right (by norm_num)
    · norm_num
  · exact min_le_of_right_le (by norm_num)

/-- C8: `Color3::write` emits, per pixel, the three channel values obtained
by gamma-correcting (square root of positive values, `0` otherwise),
clamping into `INTENSITY = [0, 0.999]`, scaling by `256` and truncating;
the result is a natural number at most `255` on every channel, for every
input color and every square-root function. -/
theorem color3_write_in_range (sq : ℚ → ℚ) (v : Vec3) :
    Color3.write sq v =
      (Color3.writeChannel sq v.x, Color3.writeChannel sq v.y,
        Color3.writeChannel sq v.z)
    ∧ (∀ c : ℚ, Color3.writeChannel sq c =
        (Int.floor (INTENSITY.clamp (linear_to_gamma sq c) * 256)).toNat)
    ∧ Color3.writeChannel sq v.x ≤ 255
    ∧ Color3.writeChannel sq v.y ≤ 255
    ∧ Color3.writeChannel sq v.z ≤ 255 := by
  have key : ∀ c : ℚ, Color3.writeChannel sq c ≤ 255 := by
    intro c
    unfold Color3.writeChannel
    have hb := intensity_clamp_bounds (linear_to_gamma sq c)
    have hlt : INTENSITY.clamp (linear_to_gamma sq c) * 256 < 256 := by
      nlinarith [hb.2]
    have hfloor : Int.floor (INTENSITY.clamp (linear_to_gamma sq c) * 256) < 256 := by
      exact_mod_cast Int.floor_lt.mpr (by exact_mod_cast hlt)
    omega
  exact ⟨rfl, fun c => rfl, key v.x, key v.y, key v.z⟩

/-- C2 (code bug): `Sphere::hit` never tries the larger root.  For the unit
sphere at the origin and a ray starting at the center (as a dielectric
refraction ray would), the discriminant is `1 ≥ 0`, the smaller root `−1`
lies outside the open interval `(0.001, 100)`, the larger root
`(h + √discriminant)/a = 1` lies inside it — yet the source returns no
hit, because after rejecting the smaller root it gives up instead of
trying the larger one. -/
theorem sphere_hit_ignores_larger_root :
    Sphere.hit id (Sphere.new (⟨0, 0, 0⟩ : Vec3) 1 ())
        (Ray.new ⟨0, 0, 0⟩ ⟨0, 0, 1⟩) (Interval.new (1 / 1000) 100) = none
    ∧ (Sphere.new (⟨0, 0, 0⟩ : Vec3) 1 ()).discriminant
        (Ray.new ⟨0, 0, 0⟩ ⟨0, 0, 1⟩) = 1
    ∧ (Interval.new (1 / 1000) 100).surrounds ((0 + id 1) / 1) = true
    ∧ (Interval.new (1 / 1000) 100).surrounds ((0 - id 1) / 1) = false := by
  refine ⟨?_, ?_, ?_, ?_⟩ <;>
    norm_num [Sphere.hit, Sphere.new, Sphere.discriminant, Ray.new, Ray.at,
      Interval.surrounds, Interval.new, Vec3.dot, Vec3.squared_length,
      Vec3.zero, min_def, max_def]

theorem Vec3.div_squared_length (v : Vec3) (k : ℚ) :
    (v.div k).squared_length = v.squared_length / k ^ 2 := by
  simp only [Vec3.div, Vec3.squared_length]
  field_simp
  ring

theorem Vec3.at_sub_center (ray : Ray) (t : ℚ) (cc : Vec3) :
    ray.at t - cc = t • ray.dir - (cc - ray.origin) := by
  simp only [Ray.at, Vec3.add_def, Vec3.sub_def, Vec3.smul_def, Vec3.mk.injEq]
  refine ⟨by ring, by ring, by ring⟩

theorem Vec3.smul_sub_squared_length (t : ℚ) (d w : Vec3) :
    (t • d - w).squared_length =
      t * t * d.squared_length - 2 * t * (d.dot w) + w.squared_length := by
  simp only [Vec3.squared_length, Vec3.dot, Vec3.sub_def, Vec3.smul_def]
  ring

theorem quadratic_root_cancel (a h c s : ℚ) (ha : a ≠ 0)
    (hs : s * s = h * h - a * c) :
    ((h - s) / a) * ((h - s) / a) * a - 2 * ((h - s) / a) * h + c = 0 := by
  have hR : (h - s) / a * a = h - s := div_mul_cancel₀ _ ha
  have hexp : (((h - s) / a) * ((h - s) / a) * a - 2 * ((h - s) / a) * h + c) * a
      = ((h - s) / a * a) * ((h - s) / a * a) - 2 * ((h - s) / a * a) * h + c * a := by
    ring
  have h0 : (((h - s) / a) * ((h - s) / a) * a - 2 * ((h - s) / a) * h + c) * a = 0 := by
    rw [hexp, hR]
    linear_combination hs
  exact (mul_eq_zero.mp h0).resolve_right ha

/-- C9: a successful `Sphere::hit` stores the unflipped outward normal
`(hit_point − current_center)/radius`; its squared length is `1` whenever
the supplied square root is exact on the discriminant (so for a positive
radius it is a unit vector pointing away from the center), and
`is_front_face` is true exactly when `dot(ray.dir, normal) < 0`; the
stored normal is the same formula regardless of which side the ray came
from. -/
theorem sphere_hit_normal_convention {μ : Type} (sq : ℚ → ℚ) (s : Sphere μ)
    (ray : Ray) (ray_t : Interval) (hr : HitRecord μ)
    (hhit : Sphere.hit sq s ray ray_t = some hr)
    (hsq : sq (s.discriminant ray) * sq (s.discriminant ray) = s.discriminant ray)
    (ha : ray.dir.squared_length ≠ 0)
    (hr0 : s.radius ≠ 0) :
    hr.normal = (hr.p - s.center.at ray.tm).div s.radius
    ∧ hr.normal.squared_length = 1
    ∧ (hr.is_front_face = true ↔ ray.dir.dot hr.normal < 0) := by
  unfold Sphere.hit at hhit
  simp only [] at hhit
  split_ifs at hhit with h1 h2
  simp only [Option.some.injEq] at hhit
  subst hhit
  refine ⟨rfl, ?_, ?_⟩
  · show ((ray.at _ - s.center.at ray.tm).div s.radius).squared_length = 1
    rw [Vec3.div_squared_length, Vec3.at_sub_center, Vec3.smul_sub_squared_length,
      div_eq_one_iff_eq (pow_ne_zero 2 hr0)]
    have hs2 : sq (s.discriminant ray) * sq (s.discriminant ray) =
        ray.dir.dot (s.center.at ray.tm - ray.origin) *
          ray.dir.dot (s.center.at ray.tm - ray.origin) -
        ray.dir.squared_length *
          ((s.center.at ray.tm - ray.origin).squared_length - s.radius ^ 2) := hsq
    have hq := quadratic_root_cancel ray.dir.squared_length
      (ray.dir.dot (s.center.at ray.tm - ray.origin))
      ((s.center.at ray.tm - ray.origin).squared_length - s.radius ^ 2)
      (sq (s.discriminant ray)) ha hs2
    linarith [hq]
  · show (HitRecord.new _ _ _ _ _).is_front_face = true ↔ _
    simp [HitRecord.new]

theorem sphere_hit_normal_convention_witness :
    Sphere.hit id (Sphere.new (⟨0, 0, 0⟩ : Vec3) 1 ())
        (Ray.new ⟨0, 0, -2⟩ ⟨0, 0, 1⟩) (Interval.new (1 / 1000) 100) =
      some ⟨⟨0, 0, -1⟩, ⟨0, 0, -1⟩, (), 1, true⟩
    ∧ ((⟨⟨0, 0, -1⟩, ⟨0, 0, -1⟩, (), 1, true⟩ : HitRecord Unit).normal =
        ((⟨⟨0, 0, -1⟩, ⟨0, 0, -1⟩, (), 1, true⟩ : HitRecord Unit).p -
          (Sphere.new (⟨0, 0, 0⟩ : Vec3) 1 ()).center.at
            (Ray.new ⟨0, 0, -2⟩ ⟨0, 0, 1⟩).tm).div
          (Sphere.new (⟨0, 0, 0⟩ : Vec3) 1 ()).radius
      ∧ (⟨⟨0, 0, -1⟩, ⟨0, 0, -1⟩, (), 1, true⟩ : HitRecord Unit).normal.squared_length = 1
      ∧ ((⟨⟨0, 0, -1⟩, ⟨0, 0, -1⟩, (), 1, true⟩ : HitRecord Unit).is_front_face = true ↔
          (Ray.new ⟨0, 0, -2⟩ ⟨0, 0, 1⟩).dir.dot
            (⟨⟨0, 0, -1⟩, ⟨0, 0, -1⟩, (), 1, true⟩ : HitRecord Unit).normal < 0)) :=
  ⟨by norm_num [Sphere.hit, Sphere.discriminant, Sphere.new, Ray.new, Ray.at,
      Vec3.dot, Vec3.squared_length, Vec3.zero, Vec3.div, Interval.surrounds,
      Interval.new, min_def, max_def, HitRecord.new],
    sphere_hit_normal_convention id (Sphere.new (⟨0, 0, 0⟩ : Vec3) 1 ())
      (Ray.new ⟨0, 0, -2⟩ ⟨0, 0, 1⟩) (Interval.new (1 / 1000) 100)
      ⟨⟨0, 0, -1⟩, ⟨0, 0, -1⟩, (), 1, true⟩
      (by norm_num [Sphere.hit, Sphere.discriminant, Sphere.new, Ray.new, Ray.at,
        Vec3.dot, Vec3.squared_length, Vec3.zero, Vec3.div, Interval.surrounds,
        Interval.new, min_def, max_def, HitRecord.new])
      (by norm_num [Sphere.discriminant, Sphere.new, Ray.new, Ray.at,
        Vec3.dot, Vec3.squared_length, Vec3.zero])
      (by norm_num [Ray.new, Vec3.squared_length])
      (by norm_num [Sphere.new])⟩

/-- C10: the three concrete materials never absorb a ray: for every
incoming ray, hit record, random sample and parameter choice, each of
`Lambertian::scatter`, `Metal::scatter` and `Dielectric::scatter` returns
`Some` scatter record. -/
theorem materials_always_scatter {μ : Type} (sq : ℚ → ℚ)
    (albedo rand_unit : Vec3) (fuzz refraction_index rand_pct : ℚ)
    (ray_in : Ray) (hit_record : HitRecord μ) :
    (Lambertian.scatter albedo rand_unit ray_in hit_record).isSome = true
    ∧ (Metal.scatter sq albedo fuzz rand_unit ray_in hit_record).isSome = true
    ∧ (Dielectric.scatter sq refraction_index rand_pct ray_in hit_record).isSome = true := by
  refine ⟨?_, ?_, ?_⟩ <;>
    simp [Lambertian.scatter, Metal.scatter, Dielectric.scatter]

/-- C4: `Camera::ray_color` returns black when the depth is exhausted;
otherwise it queries the scene over the open interval
`(0.001, f64::MAX)`; on a hit whose material scatters it multiplies the
attenuation componentwise with the recursive color of the scattered ray
at `depth − 1`; on scatter failure it returns black; and with no scene
hit it returns the sky gradient `(1−a)·white + a·(0.5, 0.7, 1.0)` with
`a = (y+1)/2` of the unit direction. -/
theorem ray_color_characterization {μ : Type} (sq : ℚ → ℚ)
    (objHit : Ray → Interval → Option (HitRecord μ))
    (scatter : μ → Ray → HitRecord μ → Option ScatterRecord) (ray : Ray) :
    (ray_color sq objHit scatter ray 0 = Vec3.zero)
    ∧ (∀ (depth : Nat) (hit_record : HitRecord μ) (scatter_record : ScatterRecord),
        objHit ray (Interval.new (1 / 1000) fMAX) = some hit_record →
        scatter hit_record.material ray hit_record = some scatter_record →
        ray_color sq objHit scatter ray (depth + 1) =
          scatter_record.attenuation *
            ray_color sq objHit scatter scatter_record.scattered depth)
    ∧ (∀ (depth : Nat) (hit_record : HitRecord μ),
        objHit ray (Interval.new (1 / 1000) fMAX) = some hit_record →
        scatter hit_record.material ray hit_record = none →
        ray_color sq objHit scatter ray (depth + 1) = Vec3.zero)
    ∧ (∀ depth : Nat,
        objHit ray (Interval.new (1 / 1000) fMAX) = none →
        ray_color sq objHit scatter ray (depth + 1) =
          (1 - 1 / 2 * ((ray.dir.unit sq).y + 1)) • (⟨1, 1, 1⟩ : Vec3)
            + (1 / 2 * ((ray.dir.unit sq).y + 1)) • (⟨1 / 2, 7 / 10, 1⟩ : Vec3)) := by
  refine ⟨rfl, ?_, ?_, ?_⟩
  · intro depth hit_record scatter_record hhit hscat
    simp only [ray_color, hhit, hscat]
  · intro depth hit_record hhit hscat
    simp only [ray_color, hhit, hscat]
  · intro depth hhit
    simp only [ray_color, hhit]

theorem ray_color_characterization_witness :
    (fun (_ : Ray) (_ : Interval) => (none : Option (HitRecord Unit)))
        (Ray.new ⟨0, 0, 0⟩ ⟨0, 0, 1⟩) (Interval.new (1 / 1000) fMAX) = none
    ∧ ray_color id (fun _ _ => (none : Option (HitRecord Unit)))
        (fun _ _ _ => none) (Ray.new ⟨0, 0, 0⟩ ⟨0, 0, 1⟩) 1 =
        (1 - 1 / 2 * (((Ray.new (⟨0, 0, 0⟩ : Vec3) ⟨0, 0, 1⟩).dir.unit id).y + 1)) •
            (⟨1, 1, 1⟩ : Vec3)
          + (1 / 2 * (((Ray.new (⟨0, 0, 0⟩ : Vec3) ⟨0, 0, 1⟩).dir.unit id).y + 1)) •
            (⟨1 / 2, 7 / 10, 1⟩ : Vec3) :=
  ⟨rfl,
    (ray_color_characterization id (fun _ _ => none) (fun _ _ _ => none)
      (Ray.new ⟨0, 0, 0⟩ ⟨0, 0, 1⟩)).2.2.2 0 rfl⟩

/-- C3 (code bug): `HittableList::boundnig_box` is `todo!()` and panics on
every list instead of returning the maintained union box; meanwhile
`HittableList::add` does update `bbox` to the union of the previous box
and the added object's box, starting from the degenerate zero-corner box
of `HittableList::new`. -/
theorem hittable_list_bounds_panics :
    (∀ (α : Type) (l : HittableList α),
      HittableList.boundnig_box l = Except.error "not yet implemented")
    ∧ (∀ (α : Type) (bb : α → AABB) (l : HittableList α) (o : α),
        (HittableList.add bb l o).bbox = AABB.from_boxes l.bbox (bb o)
        ∧ (HittableList.add bb l o).objects = l.objects ++ [o])
    ∧ (HittableList.new (α := Unit)).bbox =
        AABB.from_points Vec3.zero Vec3.zero :=
  ⟨fun _ _ => rfl, fun _ _ _ _ => ⟨rfl, rfl⟩, rfl⟩

/-- The minimal element of `ts` strictly inside `I` (the canonical
nearest-hit semantics of the `Hittable::hit` contract: the `t` values in
`ts` are the intersections an object reports along a fixed ray). -/
def listMinHit (ts : List ℚ) (I : Interval) : Option ℚ :=
  match ts with
  | [] => none
  | t :: rest =>
    match listMinHit rest I with
    | none => if I.surrounds t then some t else none
    | some m => if I.surrounds t ∧ t ≤ m then some t else some m

theorem listMinHit_none_iff (ts : List ℚ) (I : Interval) :
    listMinHit ts I = none ↔ ∀ t ∈ ts, ¬ (I.surrounds t = true) := by
  induction ts with
  | nil => simp [listMinHit]
  | cons t rest ih =>
    rcases h : listMinHit rest I with _ | m
    · have ih2 : ∀ u ∈ rest, ¬ (I.surrounds u = true) := ih.mp h
      simp only [listMinHit, h]
      constructor
      · intro hnone u hu
        rcases List.mem_cons.mp hu with rfl | hu
        · intro hs
          simp [hs] at hnone
        · exact ih2 u hu
      · intro hall
        rw [if_neg (hall t (List.mem_cons_self t rest))]
    · have hm : ¬ (∀ u ∈ rest, ¬ (I.surrounds u = true)) := by
        intro hall
        rw [ih.mpr hall] at h
        exact absurd h (by simp)
      simp only [listMinHit, h]
      constructor
      · intro hnone
        split_ifs at hnone
      · intro hall
        exact absurd (fun u hu => hall u (List.mem_cons_of_mem t hu)) hm

theorem listMinHit_some_spec (ts : List ℚ) (I : Interval) (m : ℚ)
    (h : listMinHit ts I = some m) :
    m ∈ ts ∧ I.surrounds m = true
      ∧ ∀ t ∈ ts, I.surrounds t = true → m ≤ t := by
  induction ts generalizing m with
  | nil => simp [listMinHit] at h
  | cons t rest ih =>
    rcases hr : listMinHit rest I with _ | m0
    · simp only [listMinHit, hr] at h
      split_ifs at h with hs
      · simp only [Option.some.injEq] at h
        rw [← h]
        refine ⟨List.mem_cons_self t rest, hs, ?_⟩
        intro u hu hus
        rcases List.mem_cons.mp hu with h2 | hu
        · exact le_of_eq h2.symm
        · exact absurd hus ((listMinHit_none_iff rest I).mp hr u hu)
    · have hspec := ih m0 hr
      simp only [listMinHit, hr] at h
      split_ifs at h with hs
      · simp only [Option.some.injEq] at h
        rw [← h]
        refine ⟨List.mem_cons_self t rest, hs.1, ?_⟩
        intro u hu hus
        rcases List.mem_cons.mp hu with h2 | hu
        · exact le_of_eq h2.symm
        · exact le_trans hs.2 (hspec.2.2 u hu hus)
      · simp only [Option.some.injEq] at h
        rw [← h]
        refine ⟨List.mem_cons_of_mem t hspec.1, hspec.2.1, ?_⟩
        intro u hu hus
        rcases List.mem_cons.mp hu with h2 | hu
        · subst h2
          exact le_of_not_le (fun hle => hs ⟨hus, hle⟩)
        · exact hspec.2.2 u hu hus

theorem listMinHit_eq_some_iff (ts : List ℚ) (I : Interval) (m : ℚ) :
    listMinHit ts I = some m ↔
      (m ∈ ts ∧ I.surrounds m = true
        ∧ ∀ t ∈ ts, I.surrounds t = true → m ≤ t) := by
  constructor
  · exact listMinHit_some_spec ts I m
  · intro ⟨hmem, hsur, hleast⟩
    rcases h : listMinHit ts I with _ | m0
    · exact absurd hsur ((listMinHit_none_iff ts I).mp h m hmem)
    · have hspec := listMinHit_some_spec ts I m0 h
      have h1 := hleast m0 hspec.1 hspec.2.1
      have h2 := hspec.2.2 m hmem hsur
      rw [le_antisymm h2 h1]

/-- Prefer the second query's result over the first one (`Option::or_else`
with the arguments in traversal order). -/
def orElseHit (o2 o1 : Option ℚ) : Option ℚ :=
  match o2 with
  | some m => some m
  | none => o1

theorem hit_combine (rt : Interval) (ts1 ts2 : List ℚ) (o1 o2 : Option ℚ)
    (h1 : o1 = listMinHit ts1 rt)
    (h2 : o2 = listMinHit ts2
      (match o1 with
       | some tb => Interval.mk rt.min tb
       | none => rt)) :
    orElseHit o2 o1 = listMinHit (ts1 ++ ts2) rt := by
  rcases o1 with _ | tb
  · have hn1 : ∀ t ∈ ts1, ¬ (rt.surrounds t = true) :=
      (listMinHit_none_iff ts1 rt).mp h1.symm
    rcases o2 with _ | m
    · have hn2 : ∀ t ∈ ts2, ¬ (rt.surrounds t = true) :=
        (listMinHit_none_iff ts2 rt).mp h2.symm
      simp only [orElseHit]
      symm
      rw [listMinHit_none_iff]
      intro t ht
      rcases List.mem_append.mp ht with ht | ht
      · exact hn1 t ht
      · exact hn2 t ht
    · have hspec := listMinHit_some_spec ts2 rt m h2.symm
      simp only [orElseHit]
      symm
      rw [listMinHit_eq_some_iff]
      refine ⟨List.mem_append_right ts1 hspec.1, hspec.2.1, ?_⟩
      intro u hu hus
      rcases List.mem_append.mp hu with hu | hu
      · exact absurd hus (hn1 u hu)
      · exact hspec.2.2 u hu hus
  · have hspec1 := listMinHit_some_spec ts1 rt tb h1.symm
    have htb := (Interval.surrounds_iff rt tb).mp hspec1.2.1
    rcases o2 with _ | m
    · have hn2 : ∀ t ∈ ts2, ¬ ((Interval.mk rt.min tb).surrounds t = true) :=
        (listMinHit_none_iff _ _).mp h2.symm
      simp only [orElseHit]
      symm
      rw [listMinHit_eq_some_iff]
      refine ⟨List.mem_append_left ts2 hspec1.1, hspec1.2.1, ?_⟩
      intro u hu hus
      rcases List.mem_append.mp hu with hu | hu
      · exact hspec1.2.2 u hu hus
      · by_contra hlt
        push_neg at hlt
        apply hn2 u hu
        rw [Interval.surrounds_iff]
        exact ⟨((Interval.surrounds_iff rt u).mp hus).1, hlt⟩
    · have hspec2 := listMinHit_some_spec ts2 _ m h2.symm
      have hm := (Interval.surrounds_iff _ m).mp hspec2.2.1
      simp only [orElseHit]
      symm
      rw [listMinHit_eq_some_iff]
      have hmrt : rt.surrounds m = true := by
        rw [Interval.surrounds_iff]
        exact ⟨hm.1, lt_trans hm.2 htb.2⟩
      refine ⟨List.mem_append_right ts1 hspec2.1, hmrt, ?_⟩
      intro u hu hus
      rcases List.mem_append.mp hu with hu | hu
      · exact le_trans (le_of_lt hm.2) (hspec1.2.2 u hu hus)
      · rcases lt_or_le u tb with hult | htbu
        · apply hspec2.2.2 u hu
          rw [Interval.surrounds_iff]
          exact ⟨((Interval.surrounds_iff rt u).mp hus).1, hult⟩
        · exact le_of_lt (lt_of_lt_of_le hm.2 htbu)

/-- Concatenation of the hit lists of all objects of a scene list. -/
def allTs {α : Type} (T : α → List ℚ) : List α → List ℚ
  | [] => []
  | o :: os => T o ++ allTs T os

theorem interval_new_collapse (a b : ℚ) (h : a ≤ b) :
    Interval.new a b = Interval.mk a b := by
  unfold Interval.new
  rw [min_eq_left h, max_eq_right h]

theorem hitScan_fold_inv {α μ : Type}
    (ohit : α → Ray → Interval → Option (HitRecord μ)) (T : α → List ℚ)
    (ray : Ray) (rt : Interval)
    (Hcanon : ∀ o I, (ohit o ray I).map (fun r => r.t) = listMinHit (T o) I)
    (h1 : rt.min ≤ rt.max) (h2 : rt.max ≤ fMAX) :
    ∀ (objs : List α) (cur : Option (HitRecord μ)) (ts0 : List ℚ),
      cur.map (fun r => r.t) = listMinHit ts0 rt →
      ((objs.foldl
        (fun current_hit_record object =>
          let current_max :=
            Min.min rt.max ((current_hit_record.map (fun r => r.t)).getD fMAX)
          match ohit object ray (Interval.new rt.min current_max) with
          | some hit_record => some hit_record
          | none => current_hit_record)
        cur).map (fun r => r.t)) = listMinHit (ts0 ++ allTs T objs) rt := by
  intro objs
  induction objs with
  | nil =>
    intro cur ts0 hcur
    simp only [List.foldl_nil, allTs, List.append_nil]
    exact hcur
  | cons o os ih =>
    intro cur ts0 hcur
    rw [List.foldl_cons]
    have hassoc : ts0 ++ allTs T (o :: os) = (ts0 ++ T o) ++ allTs T os := by
      show ts0 ++ (T o ++ allTs T os) = (ts0 ++ T o) ++ allTs T os
      rw [List.append_assoc]
    rw [hassoc]
    apply ih
    rcases cur with _ | b
    · simp only [Option.map_none', Option.getD_none]
      have hint : Interval.new rt.min (Min.min rt.max fMAX) = rt := by
        rw [min_eq_left h2, interval_new_collapse rt.min rt.max h1]
      rw [hint]
      have hcomb := hit_combine rt ts0 (T o) none
        ((ohit o ray rt).map (fun r => r.t)) (by simpa using hcur) (Hcanon o rt)
      rcases ho : ohit o ray rt with _ | hr
      · rw [ho] at hcomb
        simpa [orElseHit] using hcomb
      · rw [ho] at hcomb
        simpa [orElseHit] using hcomb
    · simp only [Option.map_some', Option.getD_some]
      have hbt := listMinHit_some_spec ts0 rt b.t (by simpa using hcur.symm)
      have hb := (Interval.surrounds_iff rt b.t).mp hbt.2.1
      have hint : Interval.new rt.min (Min.min rt.max b.t) = Interval.mk rt.min b.t := by
        rw [min_eq_right (le_of_lt hb.2),
          interval_new_collapse rt.min b.t (le_of_lt hb.1)]
      rw [hint]
      have hcomb := hit_combine rt ts0 (T o) (some b.t)
        ((ohit o ray (Interval.mk rt.min b.t)).map (fun r => r.t))
        (by simpa using hcur) (Hcanon o (Interval.mk rt.min b.t))
      rcases ho : ohit o ray (Interval.mk rt.min b.t) with _ | hr
      · rw [ho] at hcomb
        simpa [orElseHit] using hcomb
      · rw [ho] at hcomb
        simpa [orElseHit] using hcomb

theorem hitScan_eq {α μ : Type}
    (ohit : α → Ray → Interval → Option (HitRecord μ)) (T : α → List ℚ)
    (ray : Ray) (rt : Interval)
    (Hcanon : ∀ o I, (ohit o ray I).map (fun r => r.t) = listMinHit (T o) I)
    (h1 : rt.min ≤ rt.max) (h2 : rt.max ≤ fMAX) (objs : List α) :
    (HittableList.hitScan ohit objs ray rt).map (fun r => r.t) =
      listMinHit (allTs T objs) rt := by
  have h := hitScan_fold_inv ohit T ray rt Hcanon h1 h2 objs none [] rfl
  simpa [HittableList.hitScan] using h

/-- The hit lists of all leaves below a BVH subtree. -/
def treeTs {α : Type} (T : α → List ℚ) : HTree α → List ℚ
  | .obj o => T o
  | .node _ l r => treeTs T l ++ treeTs T r

/-- Conservative culling: whenever a node's box test fails for an interval,
no leaf below the node has a hit inside that interval. -/
def CullOk {α : Type} (ray : Ray) (T : α → List ℚ) : HTree α → Prop
  | .obj _ => True
  | .node bbox l r =>
      (∀ I : Interval, bbox.hit ray I = false →
        ∀ t ∈ treeTs T l ++ treeTs T r, ¬ (I.surrounds t = true))
      ∧ CullOk ray T l ∧ CullOk ray T r

theorem htree_hit_eq {α μ : Type}
    (ohit : α → Ray → Interval → Option (HitRecord μ)) (T : α → List ℚ)
    (ray : Ray)
    (Hcanon : ∀ o I, (ohit o ray I).map (fun r => r.t) = listMinHit (T o) I) :
    ∀ (tree : HTree α) (rt : Interval), rt.min ≤ rt.max → CullOk ray T tree →
      (HTree.hit ohit tree ray rt).map (fun r => r.t) =
        listMinHit (treeTs T tree) rt := by
  intro tree
  induction tree with
  | obj o =>
    intro rt h1 _
    exact Hcanon o rt
  | node bbox l r ihl ihr =>
    intro rt h1 hcull
    obtain ⟨hc, hcl, hcr⟩ := hcull
    cases hb : bbox.hit ray rt with
    | false =>
      have hnone : HTree.hit ohit (HTree.node bbox l r) ray rt = none := by
        simp [HTree.hit, hb]
      rw [hnone]
      symm
      rw [show Option.map (fun (r : HitRecord μ) => r.t) none = none from rfl,
        listMinHit_none_iff]
      intro t ht
      exact hc rt hb t ht
    | true =>
      have ihl2 := ihl rt h1 hcl
      rcases hlh : HTree.hit ohit l ray rt with _ | lb
      · rw [hlh] at ihl2
        have hint : Interval.new rt.min rt.max = rt :=
          interval_new_collapse rt.min rt.max h1
        have hnode : HTree.hit ohit (HTree.node bbox l r) ray rt =
            HTree.hit ohit r ray rt := by
          simp only [HTree.hit, hb, hlh]
          simp [hint, orElseHit2_right_none]
        rw [hnode]
        have ihr2 := ihr rt h1 hcr
        have hcomb := hit_combine rt (treeTs T l) (treeTs T r) none
          ((HTree.hit ohit r ray rt).map (fun r => r.t))
          (by simpa using ihl2) ihr2
        rcases hrh : HTree.hit ohit r ray rt with _ | rb
        · rw [hrh] at hcomb
          simpa [orElseHit] using hcomb
        · rw [hrh] at hcomb
          simpa [orElseHit] using hcomb
      · rw [hlh] at ihl2
        have hlbt := listMinHit_some_spec (treeTs T l) rt lb.t
          (by simpa using ihl2.symm)
        have hlb := (Interval.surrounds_iff rt lb.t).mp hlbt.2.1
        have hint : Interval.new rt.min lb.t = Interval.mk rt.min lb.t :=
          interval_new_collapse rt.min lb.t (le_of_lt hlb.1)
        have hnode : HTree.hit ohit (HTree.node bbox l r) ray rt =
            orElseHit2 (HTree.hit ohit r ray (Interval.mk rt.min lb.t))
              (some lb) := by
          simp only [HTree.hit, hb, hlh]
          simp [hint]
        rw [hnode]
        have ihr2 := ihr (Interval.mk rt.min lb.t) (le_of_lt hlb.1) hcr
        have hcomb := hit_combine rt (treeTs T l) (treeTs T r) (some lb.t)
          ((HTree.hit ohit r ray (Interval.mk rt.min lb.t)).map (fun r => r.t))
          (by simpa using ihl2) ihr2
        rcases hrh : HTree.hit ohit r ray (Interval.mk rt.min lb.t) with _ | rb
        · rw [hrh] at hcomb
          simpa [orElseHit] using hcomb
        · rw [hrh] at hcomb
          simpa [orElseHit] using hcomb

theorem interval_new_sorted (a b : ℚ) :
    (Interval.new a b).min ≤ (Interval.new a b).max :=
  le_trans (min_le_left a b) (le_max_left a b)

theorem htree_hit_surrounds {α μ : Type}
    (ohit : α → Ray → Interval → Option (HitRecord μ)) (T : α → List ℚ)
    (ray : Ray)
    (Hcanon : ∀ o I, (ohit o ray I).map (fun r => r.t) = listMinHit (T o) I) :
    ∀ (tree : HTree α) (I : Interval), I.min ≤ I.max →
      ∀ hr : HitRecord μ, HTree.hit ohit tree ray I = some hr →
        I.surrounds hr.t = true := by
  intro tree
  induction tree with
  | obj o =>
    intro I h1 hr hhit
    have hhit2 : ohit o ray I = some hr := hhit
    have hmap := Hcanon o I
    rw [hhit2] at hmap
    exact (listMinHit_some_spec (T o) I hr.t (by simpa using hmap.symm)).2.1
  | node bbox l r ihl ihr =>
    intro I h1 hr hhit
    by_cases hb : bbox.hit ray I = true
    · rcases hlh : HTree.hit ohit l ray I with _ | lb
      · have hint : Interval.new I.min I.max = I :=
          interval_new_collapse I.min I.max h1
        have hnode : HTree.hit ohit (HTree.node bbox l r) ray I =
            HTree.hit ohit r ray I := by
          simp only [HTree.hit, hlh]
          simp [hb, hint, orElseHit2_right_none]
        rw [hnode] at hhit
        exact ihr I h1 hr hhit
      · have hsl := ihl I h1 lb hlh
        have hlb := (Interval.surrounds_iff I lb.t).mp hsl
        have hint : Interval.new I.min lb.t = Interval.mk I.min lb.t :=
          interval_new_collapse I.min lb.t (le_of_lt hlb.1)
        have hnode : HTree.hit ohit (HTree.node bbox l r) ray I =
            orElseHit2 (HTree.hit ohit r ray (Interval.mk I.min lb.t))
              (some lb) := by
          simp only [HTree.hit, hlh]
          simp [hb, hint]
        rw [hnode] at hhit
        rcases hrh : HTree.hit ohit r ray (Interval.mk I.min lb.t) with _ | rb
        · rw [hrh] at hhit
          simp only [orElseHit2_none, Option.some.injEq] at hhit
          rw [← hhit]
          exact hsl
        · rw [hrh] at hhit
          simp only [orElseHit2_some, Option.some.injEq] at hhit
          have hsr := ihr (Interval.mk I.min lb.t) (le_of_lt hlb.1) rb hrh
          have hrb := (Interval.surrounds_iff _ rb.t).mp hsr
          rw [← hhit, Interval.surrounds_iff]
          exact ⟨hrb.1, lt_trans hrb.2 hlb.2⟩
    · have hnode : HTree.hit ohit (HTree.node bbox l r) ray I = none := by
        simp [HTree.hit, hb]
      rw [hnode] at hhit
      exact absurd hhit (by simp)

/-- The interval has its bounds in order. -/
def Interval.sortedI (i : Interval) : Prop := i.min ≤ i.max

/-- `i` is contained in `j`. -/
def Interval.subsetI (i j : Interval) : Prop := j.min ≤ i.min ∧ i.max ≤ j.max

/-- All three axis intervals have their bounds in order. -/
def AABB.sortedB (b : AABB) : Prop :=
  b.x.sortedI ∧ b.y.sortedI ∧ b.z.sortedI

/-- `b1` is contained in `b2` on every axis. -/
def AABB.subsetB (b1 b2 : AABB) : Prop :=
  b1.x.subsetI b2.x ∧ b1.y.subsetI b2.y ∧ b1.z.subsetI b2.z

theorem Interval.subsetI_refl (i : Interval) : i.subsetI i :=
  ⟨le_refl _, le_refl _⟩

theorem Interval.subsetI_trans {i j k : Interval} (h1 : i.subsetI j)
    (h2 : j.subsetI k) : i.subsetI k :=
  ⟨le_trans h2.1 h1.1, le_trans h1.2 h2.2⟩

theorem Interval.from_intervals_subset_left (i j : Interval) :
    i.subsetI (Interval.from_intervals i j) := by
  unfold Interval.from_intervals Interval.subsetI
  dsimp only
  constructor
  · split_ifs with h
    · exact le_refl _
    · exact le_of_not_lt h
  · split_ifs with h
    · exact le_refl _
    · exact le_of_not_lt h

theorem Interval.from_intervals_subset_right (i j : Interval) :
    j.subsetI (Interval.from_intervals i j) := by
  unfold Interval.from_intervals Interval.subsetI
  dsimp only
  constructor
  · split_ifs with h
    · exact le_of_lt h
    · exact le_refl _
  · split_ifs with h
    · exact le_of_lt h
    · exact le_refl _

theorem Interval.from_intervals_sorted (i j : Interval) (hi : i.sortedI) :
    (Interval.from_intervals i j).sortedI := by
  have hi2 : i.min ≤ i.max := hi
  unfold Interval.from_intervals Interval.sortedI
  dsimp only
  split_ifs <;> push_neg at * <;> linarith

theorem AABB.from_boxes_subset_left (b1 b2 : AABB) :
    b1.subsetB (AABB.from_boxes b1 b2) :=
  ⟨Interval.from_intervals_subset_left _ _,
   Interval.from_intervals_subset_left _ _,
   Interval.from_intervals_subset_left _ _⟩

theorem AABB.from_boxes_subset_right (b1 b2 : AABB) :
    b2.subsetB (AABB.from_boxes b1 b2) :=
  ⟨Interval.from_intervals_subset_right _ _,
   Interval.from_intervals_subset_right _ _,
   Interval.from_intervals_subset_right _ _⟩

theorem AABB.from_boxes_sorted (b1 b2 : AABB) (h1 : b1.sortedB) :
    (AABB.from_boxes b1 b2).sortedB :=
  ⟨Interval.from_intervals_sorted _ _ h1.1,
   Interval.from_intervals_sorted _ _ h1.2.1,
   Interval.from_intervals_sorted _ _ h1.2.2⟩

theorem AABB.subsetB_trans {b1 b2 b3 : AABB} (h1 : b1.subsetB b2)
    (h2 : b2.subsetB b3) : b1.subsetB b3 :=
  ⟨Interval.subsetI_trans h1.1 h2.1, Interval.subsetI_trans h1.2.1 h2.2.1,
   Interval.subsetI_trans h1.2.2 h2.2.2⟩

theorem AABB.hitAxis_eq (ax : Interval) (o d : ℚ) (rt : Interval) :
    AABB.hitAxis ax o d rt =
      Interval.mk
        (Max.max (Min.min ((ax.min - o) * (1 / d)) ((ax.max - o) * (1 / d)))
          rt.min)
        (Min.min (Max.max ((ax.min - o) * (1 / d)) ((ax.max - o) * (1 / d)))
          rt.max) := by
  unfold AABB.hitAxis
  dsimp only
  rcases lt_or_le ((ax.min - o) * (1 / d)) ((ax.max - o) * (1 / d)) with h | h
  · rw [if_pos h, Interval.mk.injEq, min_eq_left (le_of_lt h),
      max_eq_right (le_of_lt h)]
    constructor
    · split_ifs with h2
      · exact (max_eq_left (le_of_lt h2)).symm
      · exact (max_eq_right (le_of_not_lt h2)).symm
    · split_ifs with h2
      · exact (min_eq_left (le_of_lt h2)).symm
      · exact (min_eq_right (le_of_not_lt h2)).symm
  · rw [if_neg (not_lt.mpr h), Interval.mk.injEq, min_eq_right h,
      max_eq_left h]
    constructor
    · split_ifs with h2
      · exact (max_eq_left (le_of_lt h2)).symm
      · exact (max_eq_right (le_of_not_lt h2)).symm
    · split_ifs with h2
      · exact (min_eq_left (le_of_lt h2)).symm
      · exact (min_eq_right (le_of_not_lt h2)).symm

theorem AABB.hitAxis_mono (ax ax2 : Interval) (o d : ℚ) (rt rt2 : Interval)
    (hax : ax.sortedI) (hsub : ax.subsetI ax2) (hrt : rt.subsetI rt2) :
    (AABB.hitAxis ax o d rt).subsetI (AABB.hitAxis ax2 o d rt2) := by
  have hax2 : ax.min ≤ ax.max := hax
  have hsubl : ax2.min ≤ ax.min := hsub.1
  have hsubr : ax.max ≤ ax2.max := hsub.2
  rw [AABB.hitAxis_eq, AABB.hitAxis_eq]
  constructor
  · show Max.max _ rt2.min ≤ Max.max _ rt.min
    apply max_le_max ?_ hrt.1
    rcases le_or_lt 0 (1 / d) with hk | hk
    · have h01 : (ax.min - o) * (1 / d) ≤ (ax.max - o) * (1 / d) :=
        mul_le_mul_of_nonneg_right (by linarith) hk
      rw [min_eq_left h01]
      exact le_trans (min_le_left _ _)
        (mul_le_mul_of_nonneg_right (by linarith) hk)
    · have h01 : (ax.max - o) * (1 / d) ≤ (ax.min - o) * (1 / d) :=
        mul_le_mul_of_nonpos_right (by linarith) (le_of_lt hk)
      rw [min_eq_right h01]
      exact le_trans (min_le_right _ _)
        (mul_le_mul_of_nonpos_right (by linarith) (le_of_lt hk))
  · show Min.min _ rt.max ≤ Min.min _ rt2.max
    apply min_le_min ?_ hrt.2
    rcases le_or_lt 0 (1 / d) with hk | hk
    · have h01 : (ax.min - o) * (1 / d) ≤ (ax.max - o) * (1 / d) :=
        mul_le_mul_of_nonneg_right (by linarith) hk
      rw [max_eq_right h01]
      exact le_trans (mul_le_mul_of_nonneg_right (by linarith) hk)
        (le_max_right _ _)
    · have h01 : (ax.max - o) * (1 / d) ≤ (ax.min - o) * (1 / d) :=
        mul_le_mul_of_nonpos_right (by linarith) (le_of_lt hk)
      rw [max_eq_left h01]
      exact le_trans (mul_le_mul_of_nonpos_right (by linarith) (le_of_lt hk))
        (le_max_left _ _)

theorem aabb_hit_mono (b b2 : AABB) (hb : b.sortedB) (hsub : b.subsetB b2)
    (ray : Ray) (rt : Interval) (hhit : b.hit ray rt = true) :
    b2.hit ray rt = true := by
  have c1 := ((aabb_hit_stages b ray rt).2.2).mp hhit
  rw [(aabb_hit_stages b2 ray rt).2.2]
  have hs0 : (narrowStage b ray rt 0).subsetI (narrowStage b2 ray rt 0) :=
    Interval.subsetI_refl rt
  have hs1 : (narrowStage b ray rt 1).subsetI (narrowStage b2 ray rt 1) :=
    AABB.hitAxis_mono _ _ _ _ _ _ hb.1 hsub.1 hs0
  have hs2 : (narrowStage b ray rt 2).subsetI (narrowStage b2 ray rt 2) :=
    AABB.hitAxis_mono _ _ _ _ _ _ hb.2.1 hsub.2.1 hs1
  have hs3 : (narrowStage b ray rt 3).subsetI (narrowStage b2 ray rt 3) :=
    AABB.hitAxis_mono _ _ _ _ _ _ hb.2.2 hsub.2.2 hs2
  exact lt_of_le_of_lt hs3.1 (lt_of_lt_of_le c1 hs3.2)

theorem listMinHit_mem_congr (ts1 ts2 : List ℚ) (I : Interval)
    (hmem : ∀ t, t ∈ ts1 ↔ t ∈ ts2) :
    listMinHit ts1 I = listMinHit ts2 I := by
  rcases h : listMinHit ts1 I with _ | m
  · symm
    rw [listMinHit_none_iff] at h ⊢
    intro u hu
    exact h u ((hmem u).mpr hu)
  · symm
    rw [listMinHit_eq_some_iff]
    have hspec := listMinHit_some_spec ts1 I m h
    exact ⟨(hmem m).mp hspec.1, hspec.2.1,
      fun u hu hus => hspec.2.2 u ((hmem u).mpr hu) hus⟩

/-- The bounding box reported by `boundnig_box()` for a node of the
`Hittable` tree (a leaf reports its own box, a `BVHNode` its stored box). -/
def treeBB {α : Type} (bb : α → AABB) : HTree α → AABB
  | .obj o => bb o
  | .node b _ _ => b

/-- `BVHNode::new_span` from `src/bvh.rs` as a construction relation: a
span of one object duplicates it as both children; a span of two makes
them the children directly; a longer span reorders the range (the
comparator-based sort by a random axis is modelled as an arbitrary
permutation), splits at the midpoint index and recurses; every interior
box is `AABB::from_boxes` of the children's boxes. -/
inductive Builds {α : Type} (bb : α → AABB) : List α → HTree α → Prop
  | single (o : α) : Builds bb [o]
      (HTree.node (AABB.from_boxes (bb o) (bb o)) (HTree.obj o) (HTree.obj o))
  | pair (o1 o2 : α) : Builds bb [o1, o2]
      (HTree.node (AABB.from_boxes (bb o1) (bb o2)) (HTree.obj o1) (HTree.obj o2))
  | split (objs osorted : List α) (l r : HTree α) :
      2 < objs.length → objs.Perm osorted →
      Builds bb (osorted.take (objs.length / 2)) l →
      Builds bb (osorted.drop (objs.length / 2)) r →
      Builds bb objs
        (HTree.node (AABB.from_boxes (treeBB bb l) (treeBB bb r)) l r)

theorem mem_allTs {α : Type} (T : α → List ℚ) :
    ∀ (l : List α) (t : ℚ), t ∈ allTs T l ↔ ∃ o ∈ l, t ∈ T o := by
  intro l
  induction l with
  | nil =>
    intro t
    simp [allTs]
  | cons o os ih =>
    intro t
    simp only [allTs, List.mem_append, ih t, List.mem_cons]
    constructor
    · rintro (h | ⟨u, hu, htu⟩)
      · exact ⟨o, Or.inl rfl, h⟩
      · exact ⟨u, Or.inr hu, htu⟩
    · rintro ⟨u, (rfl | hu), htu⟩
      · exact Or.inl htu
      · exact Or.inr ⟨u, hu, htu⟩

theorem builds_treeTs_mem {α : Type} (bb : α → AABB) (T : α → List ℚ)
    {objs : List α} {tree : HTree α} (hB : Builds bb objs tree) :
    ∀ t, t ∈ treeTs T tree ↔ t ∈ allTs T objs := by
  induction hB with
  | single o =>
    intro t
    simp [treeTs, allTs]
  | pair o1 o2 =>
    intro t
    simp [treeTs, allTs]
  | split objs osorted l r hlen hperm hl hr ihl ihr =>
    intro t
    simp only [treeTs, List.mem_append, ihl t, ihr t]
    rw [mem_allTs, mem_allTs, mem_allTs]
    constructor
    · rintro (⟨o, ho, hto⟩ | ⟨o, ho, hto⟩)
      · exact ⟨o, hperm.mem_iff.mpr (List.take_subset _ _ ho), hto⟩
      · exact ⟨o, hperm.mem_iff.mpr (List.drop_subset _ _ ho), hto⟩
    · rintro ⟨o, ho, hto⟩
      have ho2 : o ∈ osorted := hperm.mem_iff.mp ho
      rw [← List.take_append_drop (objs.length / 2) osorted] at ho2
      rcases List.mem_append.mp ho2 with h | h
      · exact Or.inl ⟨o, h, hto⟩
      · exact Or.inr ⟨o, h, hto⟩

theorem builds_box {α : Type} (bb : α → AABB) (hs : ∀ o, (bb o).sortedB)
    {objs : List α} {tree : HTree α} (hB : Builds bb objs tree) :
    (treeBB bb tree).sortedB ∧ ∀ o ∈ objs, (bb o).subsetB (treeBB bb tree) := by
  induction hB with
  | single o =>
    refine ⟨AABB.from_boxes_sorted _ _ (hs o), ?_⟩
    intro u hu
    rcases List.mem_singleton.mp hu with rfl
    exact AABB.from_boxes_subset_left _ _
  | pair o1 o2 =>
    refine ⟨AABB.from_boxes_sorted _ _ (hs o1), ?_⟩
    intro u hu
    rcases List.mem_cons.mp hu with rfl | hu
    · exact AABB.from_boxes_subset_left _ _
    · rcases List.mem_singleton.mp hu with rfl
      exact AABB.from_boxes_subset_right _ _
  | split objs osorted l r hlen hperm hl hr ihl ihr =>
    refine ⟨AABB.from_boxes_sorted _ _ ihl.1, ?_⟩
    intro o ho
    have ho2 : o ∈ osorted := hperm.mem_iff.mp ho
    rw [← List.take_append_drop (objs.length / 2) osorted] at ho2
    rcases List.mem_append.mp ho2 with h | h
    · exact AABB.subsetB_trans (ihl.2 o h) (AABB.from_boxes_subset_left _ _)
    · exact AABB.subsetB_trans (ihr.2 o h) (AABB.from_boxes_subset_right _ _)

theorem builds_cullOk {α : Type} (bb : α → AABB) (T : α → List ℚ) (ray : Ray)
    (hs : ∀ o, (bb o).sortedB)
    (Hbb : ∀ (o : α) (I : Interval) (t : ℚ), t ∈ T o →
      I.surrounds t = true → (bb o).hit ray I = true)
    {objs : List α} {tree : HTree α} (hB : Builds bb objs tree) :
    CullOk ray T tree := by
  induction hB with
  | single o =>
    refine ⟨?_, trivial, trivial⟩
    intro I hIf t ht hst
    have ht2 : t ∈ T o := by
      rcases List.mem_append.mp ht with h | h <;> exact h
    have h1 := Hbb o I t ht2 hst
    have h2 := aabb_hit_mono (bb o) (AABB.from_boxes (bb o) (bb o)) (hs o)
      (AABB.from_boxes_subset_left _ _) ray I h1
    rw [hIf] at h2
    simp at h2
  | pair o1 o2 =>
    refine ⟨?_, trivial, trivial⟩
    intro I hIf t ht hst
    rcases List.mem_append.mp ht with h | h
    · have h1 := Hbb o1 I t h hst
      have h2 := aabb_hit_mono (bb o1) (AABB.from_boxes (bb o1) (bb o2))
        (hs o1) (AABB.from_boxes_subset_left _ _) ray I h1
      rw [hIf] at h2
      simp at h2
    · have h1 := Hbb o2 I t h hst
      have h2 := aabb_hit_mono (bb o2) (AABB.from_boxes (bb o1) (bb o2))
        (hs o2) (AABB.from_boxes_subset_right _ _) ray I h1
      rw [hIf] at h2
      simp at h2
  | split objs osorted l r hlen hperm hl hr ihl ihr =>
    refine ⟨?_, ihl, ihr⟩
    intro I hIf t ht hst
    rcases List.mem_append.mp ht with h | h
    · obtain ⟨o, ho, hto⟩ :=
        (mem_allTs T _ t).mp ((builds_treeTs_mem bb T hl t).mp h)
      have hboxl := builds_box bb hs hl
      have hsub : (bb o).subsetB (AABB.from_boxes (treeBB bb l) (treeBB bb r)) :=
        AABB.subsetB_trans (hboxl.2 o ho) (AABB.from_boxes_subset_left _ _)
      have h1 := Hbb o I t hto hst
      have h2 := aabb_hit_mono (bb o) _ (hs o) hsub ray I h1
      rw [hIf] at h2
      simp at h2
    · obtain ⟨o, ho, hto⟩ :=
        (mem_allTs T _ t).mp ((builds_treeTs_mem bb T hr t).mp h)
      have hboxr := builds_box bb hs hr
      have hsub : (bb o).subsetB (AABB.from_boxes (treeBB bb l) (treeBB bb r)) :=
        AABB.subsetB_trans (hboxr.2 o ho) (AABB.from_boxes_subset_right _ _)
      have h1 := Hbb o I t hto hst
      have h2 := aabb_hit_mono (bb o) _ (hs o) hsub ray I h1
      rw [hIf] at h2
      simp at h2

/-- C1: over abstract scene objects that implement the nearest-hit contract
(`Hcanon`: each object reports the minimal hit `t` strictly inside the
queried interval, out of its fixed hit set `T`), with conservative leaf
boxes (`Hbb`, ordered per `Hsorted`), a BVH built by `BVHNode::new_span`
over the object list (`Builds`, with the random sort axis modelled as an
arbitrary permutation) answers every nearest-hit query with the same
parametric `t` as the linear scan `HittableList::hit` over the unsorted
list — exactly, not merely within floating tolerance; moreover, whenever
both children of a traversed node hit, the node returns the right child's
record, whose `t` is at most the left child's `t`, because the right
search ran over the interval narrowed to the left hit. -/
theorem bvh_hit_equals_linear_scan {α μ : Type}
    (ohit : α → Ray → Interval → Option (HitRecord μ)) (T : α → List ℚ)
    (bb : α → AABB) (ray : Ray) (objs : List α) (tree : HTree α)
    (rt : Interval)
    (Hcanon : ∀ o I, (ohit o ray I).map (fun r => r.t) = listMinHit (T o) I)
    (Hbb : ∀ (o : α) (I : Interval) (t : ℚ), t ∈ T o →
      I.surrounds t = true → (bb o).hit ray I = true)
    (Hsorted : ∀ o, (bb o).sortedB)
    (Hbuild : Builds bb objs tree)
    (h1 : rt.min ≤ rt.max) (h2 : rt.max ≤ fMAX) :
    ((HTree.hit ohit tree ray rt).map (fun r => r.t) =
      (HittableList.hitScan ohit objs ray rt).map (fun r => r.t))
    ∧ (∀ (bbox : AABB) (l r : HTree α) (I : Interval) (lh rh : HitRecord μ),
        I.min ≤ I.max →
        bbox.hit ray I = true →
        HTree.hit ohit l ray I = some lh →
        HTree.hit ohit r ray (Interval.new I.min lh.t) = some rh →
        HTree.hit ohit (HTree.node bbox l r) ray I = some rh ∧ rh.t ≤ lh.t) := by
  constructor
  · have hcull := builds_cullOk bb T ray Hsorted Hbb Hbuild
    have htree := htree_hit_eq ohit T ray Hcanon tree rt h1 hcull
    have hscan := hitScan_eq ohit T ray rt Hcanon h1 h2 objs
    rw [htree, hscan]
    exact listMinHit_mem_congr _ _ rt (builds_treeTs_mem bb T Hbuild)
  · intro bbox l r I lh rh hI hbI hlhit hrhit
    have hlsur := htree_hit_surrounds ohit T ray Hcanon l I hI lh hlhit
    have hlb := (Interval.surrounds_iff I lh.t).mp hlsur
    have hint : Interval.new I.min lh.t = Interval.mk I.min lh.t :=
      interval_new_collapse I.min lh.t (le_of_lt hlb.1)
    have hrsur := htree_hit_surrounds ohit T ray Hcanon r
      (Interval.new I.min lh.t) (interval_new_sorted I.min lh.t) rh hrhit
    rw [hint] at hrsur
    have hrb := (Interval.surrounds_iff _ rh.t).mp hrsur
    constructor
    · have hnode : HTree.hit ohit (HTree.node bbox l r) ray I =
          orElseHit2 (HTree.hit ohit r ray (Interval.new I.min lh.t))
            (some lh) := by
        simp only [HTree.hit, hlhit]
        simp [hbI]
      rw [hnode, hrhit]
      rfl
    · exact le_of_lt hrb.2

/-- A concrete canonical object used to exercise the BVH/scan equivalence:
its only hit along any ray is at `t = 5`. -/
def c1ohitW : Unit → Ray → Interval → Option (HitRecord Unit) :=
  fun _ _ I =>
    (listMinHit [5] I).map (fun t => ⟨Vec3.zero, Vec3.zero, (), t, false⟩)

/-- A concrete leaf bounding box `[3,6]³`. -/
def c1bbW : Unit → AABB := fun _ => AABB.new ⟨3, 6⟩ ⟨3, 6⟩ ⟨3, 6⟩

/-- A concrete ray from the origin along `(1,1,1)`. -/
def c1rayW : Ray := Ray.new Vec3.zero ⟨1, 1, 1⟩

/-- The tree `BVHNode::new_span` builds over the one-object list. -/
def c1treeW : HTree Unit :=
  HTree.node (AABB.from_boxes (c1bbW ()) (c1bbW ()))
    (HTree.obj ()) (HTree.obj ())

theorem c1bbW_sorted (o : Unit) : (c1bbW o).sortedB := by
  refine ⟨?_, ?_, ?_⟩ <;> norm_num [c1bbW, AABB.new, Interval.sortedI]

theorem c1bbW_conservative (o : Unit) (I : Interval) (t : ℚ)
    (ht : t ∈ ([5] : List ℚ)) (hst : I.surrounds t = true) :
    (c1bbW o).hit c1rayW I = true := by
  have ht5 : t = 5 := by simpa using ht
  subst ht5
  have hs := (Interval.surrounds_iff I 5).mp hst
  rw [(aabb_hit_stages (c1bbW o) c1rayW I).2.2]
  have e1 : narrowStage (c1bbW o) c1rayW I 1 =
      Interval.mk (Max.max 3 I.min) (Min.min 6 I.max) := by
    show AABB.hitAxis ((c1bbW o).axis_interval 0) (c1rayW.origin.nth 0)
      (c1rayW.dir.nth 0) I = _
    rw [AABB.hitAxis_eq]
    norm_num [c1bbW, c1rayW, AABB.new, AABB.axis_interval, Vec3.nth,
      Ray.new, Vec3.zero]
  have hstep : AABB.hitAxis (Interval.mk 3 6) 0 1
      (Interval.mk (Max.max 3 I.min) (Min.min 6 I.max)) =
      Interval.mk (Max.max 3 I.min) (Min.min 6 I.max) := by
    rw [AABB.hitAxis_eq]
    norm_num
  have e2 : narrowStage (c1bbW o) c1rayW I 2 =
      Interval.mk (Max.max 3 I.min) (Min.min 6 I.max) := by
    show AABB.hitAxis ((c1bbW o).axis_interval 1) (c1rayW.origin.nth 1)
      (c1rayW.dir.nth 1) (narrowStage (c1bbW o) c1rayW I 1) = _
    rw [e1]
    exact hstep
  have e3 : narrowStage (c1bbW o) c1rayW I 3 =
      Interval.mk (Max.max 3 I.min) (Min.min 6 I.max) := by
    show AABB.hitAxis ((c1bbW o).axis_interval 2) (c1rayW.origin.nth 2)
      (c1rayW.dir.nth 2) (narrowStage (c1bbW o) c1rayW I 2) = _
    rw [e2]
    exact hstep
  rw [e3]
  have hl : Max.max 3 I.min < 5 := max_lt (by norm_num) hs.1
  have hr : (5 : ℚ) < Min.min 6 I.max := lt_min (by norm_num) hs.2
  show Max.max 3 I.min < Min.min 6 I.max
  linarith

theorem bvh_hit_equals_linear_scan_witness :
    ((0 : ℚ) ≤ 10 ∧ (10 : ℚ) ≤ fMAX)
    ∧ ((HTree.hit c1ohitW c1treeW c1rayW (Interval.mk 0 10)).map
        (fun r => r.t) =
      (HittableList.hitScan c1ohitW [()] c1rayW (Interval.mk 0 10)).map
        (fun r => r.t))
    ∧ (HittableList.hitScan c1ohitW [()] c1rayW (Interval.mk 0 10)).map
        (fun r => r.t) = some 5 := by
  refine ⟨⟨by norm_num, by norm_num [fMAX]⟩, ?_, ?_⟩
  · exact (bvh_hit_equals_linear_scan c1ohitW (fun _ => [5]) c1bbW c1rayW
      [()] c1treeW (Interval.mk 0 10)
      (fun o I => by cases h : listMinHit [5] I <;> simp [c1ohitW, h])
      c1bbW_conservative c1bbW_sorted (Builds.single ())
      (by norm_num) (by norm_num [fMAX])).1
  · norm_num [HittableList.hitScan, c1ohitW, c1rayW, listMinHit,
      Interval.surrounds, Interval.new, min_def, max_def, fMAX,
      Bool.and_eq_true, decide_eq_true_eq]

end RT
